import Mathlib

/-!
Verification development for the gatewayd core sources.

Hook registry: shallow embedding of plugin/hook/hook_registry.go (Registry.Run,
sorting of priorities, the verification-policy loop, deferred deletion of
handlers under the Remove policy).

Server shell: shallow embedding of the decision logic of network/server.go
(OnOpen, OnClose, OnTraffic, the listen-address selection in Run).

The payload operations that live outside the embedded sources
(utils.CastToPrimitiveTypes, structpb.NewStruct, Struct.AsMap, utils.Verify)
are kept abstract: the registry model is parametrised by an environment
providing them, and the theorems quantify over every such environment, so they
hold for the concrete Go functions in particular.
-/

namespace Hook

/-- Verification policy (config.Policy): how Run reacts to a handler result
that fails verification. -/
inductive Policy where
  | ignore
  | abort
  | remove
  | passDown
deriving DecidableEq, Repr

/-- Go context.Context, reduced to the one observable the embedded code can
react to: whether the context is cancelled. A nil context is represented by
Option.none at the call sites. context.WithCancel inherits cancellation, so
the derived context passed to the handlers carries the same flag. -/
structure GoContext where
  cancelled : Bool
deriving DecidableEq, Repr

variable {M S : Type}

/-- A hook method (hook.Method): receives the (inherited) context and a
structpb value, and returns a result value. Transport errors from the plugin
RPC surface as values failing verification, and the error component of the Go
signature is only logged by Run, so it is dropped here. -/
def Method (S : Type) : Type := GoContext → S → S

/-- The payload environment: the operations Registry.Run uses on plain maps
(type M, Go map with string keys) and structured values (type S,
structpb.Struct). These functions live outside the embedded source files;
theorems quantify over every environment. -/
structure Env (M S : Type) where
  /-- utils.CastToPrimitiveTypes. -/
  castToPrimitiveTypes : M → M
  /-- the len(args) == 0 test. -/
  isEmptyMap : M → Bool
  /-- structpb.NewStruct; Option.none models the error case (ErrCastFailed). -/
  newStruct : M → Option S
  /-- Struct.AsMap. -/
  asMap : S → M
  /-- the empty struct literal. -/
  emptyStruct : S
  /-- utils.Verify(params, result). -/
  verify : S → S → Bool

/-- Errors Registry.Run itself returns (gerr.ErrNilContext, gerr.ErrCastFailed). -/
inductive HookError where
  | nilContext
  | castFailed
deriving DecidableEq, Repr

/-- One handler invocation, recorded for the temporal claims: which priority
ran and the struct value it was given. -/
structure Invocation (S : Type) where
  priority : Nat
  input : S
deriving DecidableEq, Repr

/-- The outcome of Registry.Run: the returned plain map, the handler list for
this hook name after the run (deletions applied), and the invocation trace. -/
structure RunResult (M S : Type) where
  result : M
  handlers : List (Nat × Method S)
  trace : List (Invocation S)

/-- Key order on the handler association list: ascending priority. -/
def keyLE (a b : Nat × Method S) : Prop := a.1 ≤ b.1

instance : DecidableRel (keyLE (S := S)) := fun a b => Nat.decLe a.1 b.1

instance : IsTotal (Nat × Method S) keyLE := ⟨fun a b => Nat.le_total a.1 b.1⟩

instance : IsTrans (Nat × Method S) keyLE := ⟨fun _ _ _ h h' => Nat.le_trans h h'⟩

/-- The sort at hook_registry.go:113-120. The source collects the keys of the
Go map and sorts them with sort.SliceStable, then indexes the map; since each
priority occurs at most once, this equals stably sorting the (priority,
method) pairs by priority. -/
def sortHandlers (hs : List (Nat × Method S)) : List (Nat × Method S) :=
  List.insertionSort keyLE hs

/-- Outcome of the handler loop at hook_registry.go:126-187: either an early
return from the Abort branch (carrying the returned map) or a completed loop
(carrying the final returnVal, the collected removeList and the trace). -/
inductive LoopOut (M S : Type) where
  | aborted (result : M) (trace : List (Invocation S))
  | completed (returnVal : S) (removeList : List Nat) (trace : List (Invocation S))

/-- Record one invocation at the front of the trace. -/
def LoopOut.consTrace (i : Invocation S) : LoopOut M S → LoopOut M S
  | .aborted r tr => .aborted r (i :: tr)
  | .completed rv rm tr => .completed rv rm (i :: tr)

/-- The loop body of Registry.Run (hook_registry.go:126-187), one equation per
iteration. idx is the loop index (the source tests idx == 0), returnVal the
struct carried between handlers (initialised to the empty struct by the
caller), removeList the priorities scheduled for deletion under Remove.
The final match mirrors the Go switch: Ignore keeps going (resetting
returnVal to params when the first handler failed), Abort returns args for a
first-handler failure and returnVal.AsMap() otherwise, Remove schedules the
priority and keeps going, and the PassDown case is unreachable because the
acceptance test already passed for that policy. -/
def runLoop (env : Env M S) (c : GoContext) (policy : Policy) (params : S) (argsC : M) :
    List (Nat × Method S) → Nat → S → List Nat → LoopOut M S
  | [], _, returnVal, removeList => .completed returnVal removeList []
  | (p, m) :: rest, idx, returnVal, removeList =>
    let input := if idx = 0 then params else returnVal
    let result := m c input
    let next : LoopOut M S :=
      if env.verify params result = true ∨ policy = Policy.passDown then
        runLoop env c policy params argsC rest (idx + 1) result removeList
      else
        match policy with
        | .ignore =>
            runLoop env c policy params argsC rest (idx + 1)
              (if idx = 0 then params else returnVal) removeList
        | .abort =>
            .aborted (if idx = 0 then argsC else env.asMap returnVal) []
        | .remove =>
            runLoop env c policy params argsC rest (idx + 1)
              (if idx = 0 then params else returnVal) (removeList ++ [p])
        | .passDown =>
            runLoop env c policy params argsC rest (idx + 1) returnVal removeList
    next.consTrace ⟨p, input⟩

/-- Lines 100-111 of hook_registry.go: cast args, then build the params
struct (the empty struct when the cast args are empty, structpb.NewStruct
otherwise; Option.none signals ErrCastFailed). -/
def paramsOf (env : Env M S) (args : M) : Option S :=
  let argsC := env.castToPrimitiveTypes args
  if env.isEmptyMap argsC = true then some env.emptyStruct
  else env.newStruct argsC

/-- Registry.Run restricted to the handler list of one hook name
(hook_registry.go:85-195): nil-context check, casting, the sorted loop, then
deletion of the removeList entries and AsMap of the final returnVal. On the
Abort early return the deletion loop is never reached, so the handler list is
returned unchanged (the removeList is necessarily empty there). -/
def runOn (env : Env M S) (handlers : List (Nat × Method S)) (ctx : Option GoContext)
    (args : M) (policy : Policy) : Except HookError (RunResult M S) :=
  match ctx with
  | none => .error HookError.nilContext
  | some c =>
    let argsC := env.castToPrimitiveTypes args
    match paramsOf env args with
    | none => .error HookError.castFailed
    | some params =>
      match runLoop env c policy params argsC (sortHandlers handlers) 0 env.emptyStruct [] with
      | .aborted res tr => .ok ⟨res, handlers, tr⟩
      | .completed rv rm tr =>
          .ok ⟨env.asMap rv, handlers.filter (fun h => decide (h.1 ∉ rm)), tr⟩

/-- The hook registry (hook.Registry): a map from hook name to the handlers
registered at each priority (priorities unique per name, a Go map). -/
structure Registry (M S : Type) where
  hooks : String → List (Nat × Method S)

/-- Registry.Get. -/
def Registry.Get (reg : Registry M S) (hookName : String) : List (Nat × Method S) :=
  reg.hooks hookName

/-- Registry.Run for a hook name. -/
def Registry.Run (env : Env M S) (reg : Registry M S) (ctx : Option GoContext)
    (args : M) (hookName : String) (policy : Policy) : Except HookError (RunResult M S) :=
  runOn env (reg.hooks hookName) ctx args policy

/-- The registry after a run: the handler list of the hook name that ran is
replaced by the survivors (the in-place map mutation of the source). -/
def Registry.afterRun (reg : Registry M S) (hookName : String)
    (handlers : List (Nat × Method S)) : Registry M S :=
  ⟨fun n => if n = hookName then handlers else reg.hooks n⟩

/-- Outcome of the claim-side chained semantics: the final carry, the
priorities scheduled for removal, and the invocation trace. -/
inductive ChainOut (S : Type) where
  | aborted (carry : S) (trace : List (Invocation S))
  | completed (carry : S) (removed : List Nat) (trace : List (Invocation S))

/-- Record one invocation at the front of the trace. -/
def ChainOut.consTrace (i : Invocation S) : ChainOut S → ChainOut S
  | .aborted cy tr => .aborted cy (i :: tr)
  | .completed cy rm tr => .completed cy rm (i :: tr)

/-- Schedule one priority at the front of the removal list. -/
def ChainOut.consRemoved (p : Nat) : ChainOut S → ChainOut S
  | .aborted cy tr => .aborted cy tr
  | .completed cy rm tr => .completed cy (p :: rm) tr

/-- Trace projection. -/
def ChainOut.traceOf : ChainOut S → List (Invocation S)
  | .aborted _ tr => tr
  | .completed _ _ tr => tr

/-- Carry projection. -/
def ChainOut.carryOf : ChainOut S → S
  | .aborted cy _ => cy
  | .completed cy _ _ => cy

/-- Removal-list projection (empty on the aborted branch, as in the source,
where the early return skips the deletion loop and nothing was scheduled). -/
def ChainOut.removedOf : ChainOut S → List Nat
  | .aborted _ _ => []
  | .completed _ rm _ => rm

/-- Whether the chain completed the whole handler list. -/
def ChainOut.isCompleted : ChainOut S → Bool
  | .aborted _ _ => false
  | .completed _ _ _ => true

/-- The chained run as the specification describes it (spec 4.D steps 4-6):
the carry starts at the params value, every handler receives the current
carry, an accepted result (verification holds, or the policy is PassDown)
becomes the new carry; a rejected result keeps the previous carry and the
policy decides: Abort stops the chain, Remove schedules the priority and
continues, Ignore (and the unreachable PassDown case) just continues. -/
def chainRun (env : Env M S) (c : GoContext) (policy : Policy) (params : S) :
    List (Nat × Method S) → S → ChainOut S
  | [], carry => .completed carry [] []
  | (p, m) :: rest, carry =>
    let result := m c carry
    if env.verify params result = true ∨ policy = Policy.passDown then
      (chainRun env c policy params rest result).consTrace ⟨p, carry⟩
    else
      match policy with
      | .ignore => (chainRun env c policy params rest carry).consTrace ⟨p, carry⟩
      | .abort => .aborted carry [⟨p, carry⟩]
      | .remove => ((chainRun env c policy params rest carry).consRemoved p).consTrace ⟨p, carry⟩
      | .passDown => (chainRun env c policy params rest carry).consTrace ⟨p, carry⟩

/-- Translation of a chain outcome into the loop outcome for iterations past
the first: an abort renders the carry with AsMap; a completed chain prepends
the already-collected removeList. -/
def chainToLoopTail (env : Env M S) (rm₀ : List Nat) : ChainOut S → LoopOut M S
  | .aborted cy tr => .aborted (env.asMap cy) tr
  | .completed cy rm tr => .completed cy (rm₀ ++ rm) tr

/-- The initial returnVal twist of the source: the loop variable starts at
the empty struct, so a run over an empty handler list renders the empty
struct where the chained semantics would render its initial carry. -/
def initReturnVal (env : Env M S) (hs : List (Nat × Method S)) (cy : S) : S :=
  match hs with
  | [] => env.emptyStruct
  | _ :: _ => cy

/-- Translation of a chain outcome into the loop outcome at loop start: the
abort at the very first handler (trace of length one) returns the cast args
map instead of rendering the carry, and a chain over an empty handler list
is replaced by the initial empty struct (the source initialises returnVal to
the empty struct, not to params). -/
def chainToLoopHead (env : Env M S) (argsC : M) (hs : List (Nat × Method S)) :
    ChainOut S → LoopOut M S
  | .aborted cy tr => .aborted (if tr.length = 1 then argsC else env.asMap cy) tr
  | .completed cy rm tr => .completed (initReturnVal env hs cy) rm tr

/-- Rendering of a chain outcome as the RunResult Registry.Run produces. -/
def renderRun (env : Env M S) (args : M) (hs : List (Nat × Method S)) :
    ChainOut S → RunResult M S
  | .aborted cy tr =>
      ⟨if tr.length = 1 then env.castToPrimitiveTypes args else env.asMap cy, hs, tr⟩
  | .completed cy rm tr =>
      ⟨env.asMap (initReturnVal env (sortHandlers hs) cy),
        hs.filter (fun h => decide (h.1 ∉ rm)), tr⟩

/-- An entirely accepted prefix: every handler's result verifies against
params (or the policy is PassDown), each applied to the carry left by the
previous one. -/
def acceptedChain (env : Env M S) (c : GoContext) (policy : Policy) (params : S) :
    List (Nat × Method S) → S → Bool
  | [], _ => true
  | (_, m) :: rest, carry =>
      if env.verify params (m c carry) = true ∨ policy = Policy.passDown then
        acceptedChain env c policy params rest (m c carry)
      else false

/-- The carry after an accepted handler list: each handler's result feeds
the next. -/
def carryAll (c : GoContext) : List (Nat × Method S) → S → S
  | [], carry => carry
  | (_, m) :: rest, carry => carryAll c rest (m c carry)

/-- The invocations of an accepted handler list: each handler observes the
carry produced so far. -/
def carryTrace (c : GoContext) : List (Nat × Method S) → S → List (Invocation S)
  | [], _ => []
  | (p, m) :: rest, carry => ⟨p, carry⟩ :: carryTrace c rest (m c carry)

/-- Record a whole list of invocations in front of the trace. -/
def ChainOut.consTraces (tr : List (Invocation S)) (o : ChainOut S) : ChainOut S :=
  tr.foldr (fun i acc => acc.consTrace i) o

/-- The value an Abort early return hands back when the failure happened
after the accepted prefix pre: the args map as cast by the protocol when the
prefix is empty (the failing handler was the first), and otherwise the carry
left by the prefix, rendered with AsMap. -/
def abortResult (env : Env M S) (args : M) (c : GoContext) (params : S)
    (pre : List (Nat × Method S)) : M :=
  match pre with
  | [] => env.castToPrimitiveTypes args
  | _ :: _ => env.asMap (carryAll c pre params)

end Hook

namespace Network

/-- The error kinds of the gerr package (spec section 7). -/
inductive ErrKind where
  | poolExhausted
  | clientNotFound
  | clientNotConnected
  | clientConnectionFailed
  | clientSendFailed
  | clientReceiveFailed
  | clientNotHealthy
  | hookTerminatedConnection
  | nilContext
  | castFailed
  | failedToStartServer
  | alreadyUpgraded
deriving DecidableEq, Repr

/-- A wrapped original error; the interesting case for the server is io.EOF
from the upstream. -/
inductive WrapErr where
  | eof
  | other (msg : String)
deriving DecidableEq, Repr

/-- Modelled from the spec: gerr.GatewayDError (package errors is not under
the embedded sources). A tagged error with a kind and an optional wrapped
original error; errors.Is against a sentinel of the package tests the kind,
and Unwrap returns the wrapped original (so errors.Is(err.Unwrap(), io.EOF)
holds exactly when the wrapped error is io.EOF, and is false when nothing is
wrapped). -/
structure GatewayDError where
  kind : ErrKind
  wrapped : Option WrapErr
deriving DecidableEq, Repr

/-- gnet.Action as used by the server callbacks. -/
inductive Action where
  | none
  | close
  | shutdown
deriving DecidableEq, Repr

/-- Modelled from the spec: config.Status (package config is not under the
embedded sources). The spec's server state machine names Booting, Running,
Stopping and Stopped; the embedded source file assigns Running (OnBoot) and
Stopped (OnShutdown, Shutdown, NewServer) and compares against Stopped in
OnClose. -/
inductive Status where
  | booting
  | running
  | stopping
  | stopped
deriving DecidableEq, Repr

/-- The plugin lifecycle points the server fires (v1.HookName values). -/
inductive HookPoint where
  | onBooting
  | onBooted
  | onOpening
  | onOpened
  | onClosing
  | onClosed
  | onTraffic
  | onShutdown
  | onTick
  | onRun
deriving DecidableEq, Repr

/-- The externally visible steps a server callback performs, in order.
Logging and tracing are not modelled. -/
inductive ServerEffect where
  | runHook (h : HookPoint)
  | writeConn (msg : String)
  | proxyConnect
  | proxyDisconnect
  | incClientConnections
  | decClientConnections
deriving DecidableEq, Repr

/-- The server state the embedded callbacks read (network/server.go). -/
structure Server where
  softLimit : Nat
  hardLimit : Nat
  status : Status
deriving DecidableEq, Repr

/-- Server.OnOpen (network/server.go:85-159), abstracted over the engine's
current connection count and the result of Proxy.Connect (consulted only
when the hard-limit gate lets the connection through): the OnOpening hooks
run first, the soft-limit check only logs, the hard-limit check writes the
notice and closes, then Proxy.Connect is called; a PoolExhausted error
closes, any other error leaves the connection open without the OnOpened
hooks, and on success the OnOpened hooks run and the client-connections
gauge is incremented. -/
def Server.OnOpen (s : Server) (count : Nat) (connect : Option GatewayDError) :
    List ServerEffect × Action :=
  let effs := [ServerEffect.runHook HookPoint.onOpening]
  if 0 < s.hardLimit ∧ s.hardLimit ≤ count then
    (effs ++ [ServerEffect.writeConn "Hard limit reached\n"], Action.close)
  else
    match connect with
    | some e =>
        if e.kind = ErrKind.poolExhausted then
          (effs ++ [ServerEffect.proxyConnect], Action.close)
        else
          (effs ++ [ServerEffect.proxyConnect], Action.none)
    | none =>
        (effs ++ [ServerEffect.proxyConnect, ServerEffect.runHook HookPoint.onOpened,
          ServerEffect.incClientConnections], Action.none)

/-- Server.OnClose (network/server.go:164-230), abstracted over the engine's
connection count and the result of Proxy.Disconnect (consulted only when the
shutdown gate does not fire): the OnClosing hooks run first; when the count
is 0 and the status is Stopped the callback returns gnet.Shutdown at once;
otherwise Proxy.Disconnect runs, an error there returns gnet.Close before
the OnClosed hooks, and on success the OnClosed hooks run and the
client-connections gauge is decremented. -/
def Server.OnClose (s : Server) (count : Nat) (disconnect : Option GatewayDError) :
    List ServerEffect × Action :=
  let effs := [ServerEffect.runHook HookPoint.onClosing]
  if count = 0 ∧ s.status = Status.stopped then
    (effs, Action.shutdown)
  else
    match disconnect with
    | some _ => (effs ++ [ServerEffect.proxyDisconnect], Action.close)
    | none =>
        (effs ++ [ServerEffect.proxyDisconnect, ServerEffect.runHook HookPoint.onClosed,
          ServerEffect.decClientConnections], Action.close)

/-- The action Server.OnTraffic (network/server.go:234-276) takes for a
given Proxy.PassThrough result: the Go switch closes the inbound connection
on the enumerated error kinds and on a wrapped io.EOF, and otherwise (also
when PassThrough succeeded) flushes and keeps the connection open. -/
def Server.OnTrafficAction (passThrough : Option GatewayDError) : Action :=
  match passThrough with
  | Option.none => Action.none
  | some e =>
      if e.kind = ErrKind.poolExhausted ∨ e.kind = ErrKind.castFailed
          ∨ e.kind = ErrKind.clientNotFound ∨ e.kind = ErrKind.clientNotConnected
          ∨ e.kind = ErrKind.clientSendFailed ∨ e.kind = ErrKind.clientReceiveFailed
          ∨ e.kind = ErrKind.hookTerminatedConnection ∨ e.wrapped = some WrapErr.eof then
        Action.close
      else
        Action.none

/-- The connection-fatal close condition exactly as claim C6 enumerates it:
six error kinds (CastFailed absent) or a wrapped upstream EOF. -/
def claimC6Fatal (e : GatewayDError) : Prop :=
  e.kind ∈ [ErrKind.poolExhausted, ErrKind.clientNotFound, ErrKind.clientNotConnected,
    ErrKind.clientSendFailed, ErrKind.clientReceiveFailed, ErrKind.hookTerminatedConnection]
  ∨ e.wrapped = some WrapErr.eof

instance (e : GatewayDError) : Decidable (claimC6Fatal e) := by
  unfold claimC6Fatal
  infer_instance

/-- The connection-fatal close condition as the code has it: the claim's
six kinds plus CastFailed, or a wrapped upstream EOF. -/
def connectionFatal (e : GatewayDError) : Prop :=
  e.kind ∈ [ErrKind.poolExhausted, ErrKind.castFailed, ErrKind.clientNotFound,
    ErrKind.clientNotConnected, ErrKind.clientSendFailed, ErrKind.clientReceiveFailed,
    ErrKind.hookTerminatedConnection]
  ∨ e.wrapped = some WrapErr.eof

/-- Go values a plugin result map can hold at the points the server reads
them (result["address"].(string) succeeds only on strings). -/
inductive GoValue where
  | str (s : String)
  | num (n : Int)
  | boolean (b : Bool)
deriving DecidableEq, Repr

/-- A plugin result map, as Server.Run consumes it. -/
abbrev ResultMap : Type := List (String × GoValue)

/-- The listen-address selection of Server.Run (network/server.go:352-377):
start from the resolved configured address; when the OnRun hook result is
non-nil and has an "address" key holding a string, that string replaces the
address. -/
def Server.RunListenAddr (resolved : String) (result : Option ResultMap) : String :=
  match result with
  | Option.none => resolved
  | some r =>
      match r.lookup "address" with
      | some (GoValue.str a) => a
      | some (GoValue.num _) => resolved
      | some (GoValue.boolean _) => resolved
      | Option.none => resolved

/-- The endpoint handed to gnet.Run: Network + "://" + the selected address. -/
def Server.RunListenTarget (networkKind resolved : String) (result : Option ResultMap) :
    String :=
  networkKind ++ "://" ++ Server.RunListenAddr resolved result

end Network

namespace Conc

/-- A concrete payload type for witnesses: association lists from strings to
integers stand in for both the Go maps and the structpb values. -/
abbrev MX : Type := List (String × Int)

/-- A concrete environment whose verification accepts everything. -/
def envT : Hook.Env MX MX :=
  ⟨fun m => m, fun m => m.isEmpty, fun m => some m, fun s => s, [], fun _ _ => true⟩

/-- A concrete environment whose verification demands that the result keep
at least as many entries as the params (so dropping entries fails). -/
def envL : Hook.Env MX MX :=
  ⟨fun m => m, fun m => m.isEmpty, fun m => some m, fun s => s, [],
    fun p r => decide (p.length ≤ r.length)⟩

/-- A handler returning its input unchanged. -/
def mKeep : Hook.Method MX := fun _ s => s

/-- A handler tagging its input with one extra entry. -/
def mTag : Hook.Method MX := fun _ s => ("t", 1) :: s

/-- A handler dropping everything (fails length verification on non-empty
params). -/
def mDrop : Hook.Method MX := fun _ _ => []

/-- A handler replacing the payload by a marker. -/
def mMark : Hook.Method MX := fun _ _ => [("r", 9)]

/-- A registry with a single handler on every hook name. -/
def regOne : Hook.Registry MX MX := ⟨fun _ => [(1, mMark)]⟩

/-- A registry with handlers at priorities 10 (accepted), 20 (failing) and
30 (accepted) on every hook name. -/
def regAbort : Hook.Registry MX MX := ⟨fun _ => [(10, mTag), (20, mDrop), (30, mKeep)]⟩

/-- A registry with a failing handler at priority 10 and an accepted one at
priority 20 (the Remove scenario of the spec). -/
def regRemove : Hook.Registry MX MX := ⟨fun _ => [(10, mDrop), (20, mTag)]⟩

/-- A registry registered out of priority order, to exercise the sort. -/
def regChain : Hook.Registry MX MX := ⟨fun _ => [(2, mTag), (1, mKeep)]⟩

/-- A registry with no handlers anywhere. -/
def regEmpty : Hook.Registry MX MX := ⟨fun _ => []⟩

/-- Concrete args. -/
def argsX : MX := [("a", 1)]

end Conc

namespace Hook

variable {M S : Type}

theorem runLoop_nil (env : Env M S) (c : GoContext) (policy : Policy) (params : S)
    (argsC : M) (idx : Nat) (rv : S) (rm : List Nat) :
    runLoop env c policy params argsC [] idx rv rm = .completed rv rm [] := rfl

theorem runLoop_cons_zero (env : Env M S) (c : GoContext) (policy : Policy) (params : S)
    (argsC : M) (p : Nat) (m : Method S) (rest : List (Nat × Method S)) (rv : S)
    (rm : List Nat) :
    runLoop env c policy params argsC ((p, m) :: rest) 0 rv rm =
      LoopOut.consTrace ⟨p, params⟩
        (if env.verify params (m c params) = true ∨ policy = Policy.passDown then
          runLoop env c policy params argsC rest (0 + 1) (m c params) rm
        else
          match policy with
          | .ignore => runLoop env c policy params argsC rest (0 + 1) params rm
          | .abort => .aborted argsC []
          | .remove => runLoop env c policy params argsC rest (0 + 1) params (rm ++ [p])
          | .passDown => runLoop env c policy params argsC rest (0 + 1) rv rm) := rfl

theorem runLoop_cons (env : Env M S) (c : GoContext) (policy : Policy) (params : S)
    (argsC : M) (p : Nat) (m : Method S) (rest : List (Nat × Method S)) (idx : Nat) (rv : S)
    (rm : List Nat) :
    runLoop env c policy params argsC ((p, m) :: rest) idx rv rm =
      LoopOut.consTrace ⟨p, if idx = 0 then params else rv⟩
        (if env.verify params (m c (if idx = 0 then params else rv)) = true
            ∨ policy = Policy.passDown then
          runLoop env c policy params argsC rest (idx + 1)
            (m c (if idx = 0 then params else rv)) rm
        else
          match policy with
          | .ignore =>
              runLoop env c policy params argsC rest (idx + 1)
                (if idx = 0 then params else rv) rm
          | .abort => .aborted (if idx = 0 then argsC else env.asMap rv) []
          | .remove =>
              runLoop env c policy params argsC rest (idx + 1)
                (if idx = 0 then params else rv) (rm ++ [p])
          | .passDown => runLoop env c policy params argsC rest (idx + 1) rv rm) := rfl

theorem chainRun_nil (env : Env M S) (c : GoContext) (policy : Policy) (params : S)
    (carry : S) :
    chainRun env c policy params [] carry = .completed carry [] [] := rfl

theorem chainRun_cons (env : Env M S) (c : GoContext) (policy : Policy) (params : S)
    (p : Nat) (m : Method S) (rest : List (Nat × Method S)) (carry : S) :
    chainRun env c policy params ((p, m) :: rest) carry =
      (if env.verify params (m c carry) = true ∨ policy = Policy.passDown then
        (chainRun env c policy params rest (m c carry)).consTrace ⟨p, carry⟩
      else
        match policy with
        | .ignore => (chainRun env c policy params rest carry).consTrace ⟨p, carry⟩
        | .abort => .aborted carry [⟨p, carry⟩]
        | .remove =>
            ((chainRun env c policy params rest carry).consRemoved p).consTrace ⟨p, carry⟩
        | .passDown => (chainRun env c policy params rest carry).consTrace ⟨p, carry⟩) := rfl

theorem chainToLoopTail_consTrace (env : Env M S) (rm₀ : List Nat) (i : Invocation S)
    (o : ChainOut S) :
    chainToLoopTail env rm₀ (o.consTrace i) = (chainToLoopTail env rm₀ o).consTrace i := by
  cases o <;> rfl

theorem chainToLoopTail_consRemoved (env : Env M S) (rm₀ : List Nat) (p : Nat)
    (o : ChainOut S) :
    chainToLoopTail env rm₀ (o.consRemoved p) = chainToLoopTail env (rm₀ ++ [p]) o := by
  cases o <;> simp [ChainOut.consRemoved, chainToLoopTail]

/-- For loop indices ≥ 1 the loop is exactly the chained semantics: the
input of every handler is the carried returnVal, and the idx = 0 special
cases never fire. -/
theorem runLoop_pos_eq (env : Env M S) (c : GoContext) (policy : Policy)
    (params : S) (argsC : M) :
    ∀ (hs : List (Nat × Method S)) (idx : Nat), idx ≠ 0 →
      ∀ (carry : S) (rm₀ : List Nat),
      runLoop env c policy params argsC hs idx carry rm₀ =
        chainToLoopTail env rm₀ (chainRun env c policy params hs carry)
  | [], _, _, carry, rm₀ => by
      simp [runLoop_nil, chainRun_nil, chainToLoopTail]
  | (p, m) :: rest, idx, hidx, carry, rm₀ => by
      rw [runLoop_cons, chainRun_cons]
      simp only [if_neg hidx]
      by_cases hacc : env.verify params (m c carry) = true ∨ policy = Policy.passDown
      · rw [if_pos hacc, if_pos hacc,
          runLoop_pos_eq env c policy params argsC rest (idx + 1) (Nat.succ_ne_zero idx),
          chainToLoopTail_consTrace]
      · rw [if_neg hacc, if_neg hacc]
        cases policy with
        | ignore =>
            simp only [runLoop_pos_eq env c Policy.ignore params argsC rest (idx + 1)
              (Nat.succ_ne_zero idx), chainToLoopTail_consTrace]
        | abort =>
            rfl
        | remove =>
            simp only [runLoop_pos_eq env c Policy.remove params argsC rest (idx + 1)
              (Nat.succ_ne_zero idx), chainToLoopTail_consTrace, chainToLoopTail_consRemoved]
        | passDown =>
            exact absurd (Or.inr rfl) hacc

/-- The trace of an aborted chain is never empty: the abort records the
failing invocation. -/
theorem chainRun_aborted_trace_ne_nil (env : Env M S) (c : GoContext) (policy : Policy)
    (params : S) :
    ∀ (hs : List (Nat × Method S)) (carry : S) (cy : S) (tr : List (Invocation S)),
      chainRun env c policy params hs carry = .aborted cy tr → tr ≠ []
  | [], carry, cy, tr => by
      intro h
      rw [chainRun_nil] at h
      cases h
  | (p, m) :: rest, carry, cy, tr => by
      intro h
      rw [chainRun_cons] at h
      by_cases hacc : env.verify params (m c carry) = true ∨ policy = Policy.passDown
      · rw [if_pos hacc] at h
        cases hrec : chainRun env c policy params rest (m c carry) with
        | aborted cy' tr' =>
            rw [hrec] at h
            cases h
            simp
        | completed cy' rm' tr' =>
            rw [hrec] at h
            cases h
      · rw [if_neg hacc] at h
        cases policy with
        | ignore =>
            cases hrec : chainRun env c Policy.ignore params rest carry with
            | aborted cy' tr' =>
                rw [hrec] at h
                cases h
                simp
            | completed cy' rm' tr' =>
                rw [hrec] at h
                cases h
        | abort =>
            cases h
            simp
        | remove =>
            cases hrec : chainRun env c Policy.remove params rest carry with
            | aborted cy' tr' =>
                rw [hrec] at h
                cases h
                simp
            | completed cy' rm' tr' =>
                rw [hrec] at h
                cases h
        | passDown =>
            exact absurd (Or.inr rfl) hacc

/-- The full loop, started as the source starts it (idx = 0, returnVal the
empty struct, removeList empty), equals the chained semantics with carry
params, up to the two source-specific twists recorded by chainToLoopHead. -/
theorem runLoop_zero_eq (env : Env M S) (c : GoContext) (policy : Policy)
    (params : S) (argsC : M) (hs : List (Nat × Method S)) :
    runLoop env c policy params argsC hs 0 env.emptyStruct [] =
      chainToLoopHead env argsC hs (chainRun env c policy params hs params) := by
  cases hs with
  | nil =>
      rw [runLoop_nil, chainRun_nil]
      rfl
  | cons hd rest =>
    obtain ⟨p, m⟩ := hd
    rw [runLoop_cons_zero, chainRun_cons]
    by_cases hacc : env.verify params (m c params) = true ∨ policy = Policy.passDown
    · rw [if_pos hacc, if_pos hacc,
        runLoop_pos_eq env c policy params argsC rest (0 + 1) (Nat.succ_ne_zero 0)]
      cases hrec : chainRun env c policy params rest (m c params) with
      | aborted cy' tr' =>
          have hne : tr' ≠ [] :=
            chainRun_aborted_trace_ne_nil env c policy params rest (m c params) cy' tr' hrec
          have hlen : tr'.length + 1 ≠ 1 := by
            intro h
            have h0 : tr'.length = 0 := by omega
            exact hne (List.length_eq_zero.mp h0)
          simp [chainToLoopTail, ChainOut.consTrace, chainToLoopHead, LoopOut.consTrace,
            if_neg hlen]
      | completed cy' rm' tr' =>
          simp [chainToLoopTail, ChainOut.consTrace, chainToLoopHead, LoopOut.consTrace,
            initReturnVal]
    · rw [if_neg hacc, if_neg hacc]
      cases policy with
      | ignore =>
          simp only [runLoop_pos_eq env c Policy.ignore params argsC rest (0 + 1)
            (Nat.succ_ne_zero 0)]
          cases hrec : chainRun env c Policy.ignore params rest params with
          | aborted cy' tr' =>
              have hne : tr' ≠ [] :=
                chainRun_aborted_trace_ne_nil env c Policy.ignore params rest params cy' tr' hrec
              have hlen : tr'.length + 1 ≠ 1 := by
                intro h
                have h0 : tr'.length = 0 := by omega
                exact hne (List.length_eq_zero.mp h0)
              simp [chainToLoopTail, ChainOut.consTrace, chainToLoopHead, LoopOut.consTrace,
                if_neg hlen, hrec]
          | completed cy' rm' tr' =>
              simp [chainToLoopTail, ChainOut.consTrace, chainToLoopHead, LoopOut.consTrace,
                initReturnVal, hrec]
      | abort =>
          rfl
      | remove =>
          simp only [runLoop_pos_eq env c Policy.remove params argsC rest (0 + 1)
            (Nat.succ_ne_zero 0)]
          cases hrec : chainRun env c Policy.remove params rest params with
          | aborted cy' tr' =>
              have hne : tr' ≠ [] :=
                chainRun_aborted_trace_ne_nil env c Policy.remove params rest params cy' tr' hrec
              have hlen : tr'.length + 1 ≠ 1 := by
                intro h
                have h0 : tr'.length = 0 := by omega
                exact hne (List.length_eq_zero.mp h0)
              simp [chainToLoopTail, ChainOut.consTrace, ChainOut.consRemoved, chainToLoopHead,
                LoopOut.consTrace, if_neg hlen, hrec]
          | completed cy' rm' tr' =>
              simp [chainToLoopTail, ChainOut.consTrace, ChainOut.consRemoved, chainToLoopHead,
                LoopOut.consTrace, initReturnVal, hrec]
      | passDown =>
          exact absurd (Or.inr rfl) hacc

/-- Characterisation of runOn by the chained semantics over the
priority-sorted handler list. -/
theorem runOn_eq_chain (env : Env M S) (hs : List (Nat × Method S)) (c : GoContext)
    (args : M) (policy : Policy) (params : S)
    (hparams : paramsOf env args = some params) :
    runOn env hs (some c) args policy =
      Except.ok (renderRun env args hs
        (chainRun env c policy params (sortHandlers hs) params)) := by
  simp only [runOn, hparams, runLoop_zero_eq]
  cases hchain : chainRun env c policy params (sortHandlers hs) params with
  | aborted cy tr => simp [chainToLoopHead, renderRun]
  | completed cy rm tr => simp [chainToLoopHead, renderRun]

theorem traceOf_consTrace (i : Invocation S) (o : ChainOut S) :
    (o.consTrace i).traceOf = i :: o.traceOf := by
  cases o <;> rfl

theorem traceOf_consRemoved (p : Nat) (o : ChainOut S) :
    (o.consRemoved p).traceOf = o.traceOf := by
  cases o <;> rfl

/-- Every invocation the chain records belongs to the handler list, in
order: the trace priorities form a sublist of the handler keys. -/
theorem chainRun_trace_sublist (env : Env M S) (c : GoContext) (policy : Policy)
    (params : S) :
    ∀ (hs : List (Nat × Method S)) (carry : S),
      ((chainRun env c policy params hs carry).traceOf.map Invocation.priority).Sublist
        (hs.map Prod.fst)
  | [], carry => by
      rw [chainRun_nil]
      exact List.nil_sublist _
  | (p, m) :: rest, carry => by
      rw [chainRun_cons]
      by_cases hacc : env.verify params (m c carry) = true ∨ policy = Policy.passDown
      · rw [if_pos hacc, traceOf_consTrace]
        exact List.Sublist.cons₂ p (chainRun_trace_sublist env c policy params rest (m c carry))
      · rw [if_neg hacc]
        cases policy with
        | ignore =>
            rw [traceOf_consTrace]
            exact List.Sublist.cons₂ p
              (chainRun_trace_sublist env c Policy.ignore params rest carry)
        | abort =>
            exact List.Sublist.cons₂ p (List.nil_sublist _)
        | remove =>
            rw [traceOf_consTrace, traceOf_consRemoved]
            exact List.Sublist.cons₂ p
              (chainRun_trace_sublist env c Policy.remove params rest carry)
        | passDown =>
            exact absurd (Or.inr rfl) hacc

theorem isCompleted_consTrace (i : Invocation S) (o : ChainOut S) :
    (o.consTrace i).isCompleted = o.isCompleted := by
  cases o <;> rfl

theorem isCompleted_consRemoved (p : Nat) (o : ChainOut S) :
    (o.consRemoved p).isCompleted = o.isCompleted := by
  cases o <;> rfl

/-- Away from the Abort policy the chain never stops early. -/
theorem chainRun_isCompleted (env : Env M S) (c : GoContext) (policy : Policy)
    (params : S) (hpol : policy ≠ Policy.abort) :
    ∀ (hs : List (Nat × Method S)) (carry : S),
      (chainRun env c policy params hs carry).isCompleted = true
  | [], carry => by
      rw [chainRun_nil]
      rfl
  | (p, m) :: rest, carry => by
      rw [chainRun_cons]
      by_cases hacc : env.verify params (m c carry) = true ∨ policy = Policy.passDown
      · rw [if_pos hacc, isCompleted_consTrace]
        exact chainRun_isCompleted env c policy params hpol rest (m c carry)
      · rw [if_neg hacc]
        cases policy with
        | ignore =>
            rw [isCompleted_consTrace]
            exact chainRun_isCompleted env c Policy.ignore params hpol rest carry
        | abort => exact absurd rfl hpol
        | remove =>
            rw [isCompleted_consTrace, isCompleted_consRemoved]
            exact chainRun_isCompleted env c Policy.remove params hpol rest carry
        | passDown =>
            exact absurd (Or.inr rfl) hacc

/-- Away from the Abort policy every handler is invoked: the trace has one
entry per handler. -/
theorem chainRun_trace_length (env : Env M S) (c : GoContext) (policy : Policy)
    (params : S) (hpol : policy ≠ Policy.abort) :
    ∀ (hs : List (Nat × Method S)) (carry : S),
      (chainRun env c policy params hs carry).traceOf.length = hs.length
  | [], carry => by
      rw [chainRun_nil]
      rfl
  | (p, m) :: rest, carry => by
      rw [chainRun_cons]
      by_cases hacc : env.verify params (m c carry) = true ∨ policy = Policy.passDown
      · rw [if_pos hacc, traceOf_consTrace, List.length_cons,
          chainRun_trace_length env c policy params hpol rest (m c carry), List.length_cons]
      · rw [if_neg hacc]
        cases policy with
        | ignore =>
            rw [traceOf_consTrace, List.length_cons,
              chainRun_trace_length env c Policy.ignore params hpol rest carry, List.length_cons]
        | abort => exact absurd rfl hpol
        | remove =>
            rw [traceOf_consTrace, traceOf_consRemoved, List.length_cons,
              chainRun_trace_length env c Policy.remove params hpol rest carry, List.length_cons]
        | passDown =>
            exact absurd (Or.inr rfl) hacc

theorem consTraces_nil (o : ChainOut S) : ChainOut.consTraces [] o = o := rfl

theorem consTraces_cons (i : Invocation S) (tr : List (Invocation S)) (o : ChainOut S) :
    ChainOut.consTraces (i :: tr) o = (ChainOut.consTraces tr o).consTrace i := rfl

/-- Splitting a chain at an accepted prefix: the chain over pre ++ l is the
chain over l started at the carry left by pre, with the prefix invocations
in front. -/
theorem chainRun_append_accepted (env : Env M S) (c : GoContext) (policy : Policy)
    (params : S) :
    ∀ (pre l : List (Nat × Method S)) (carry : S),
      acceptedChain env c policy params pre carry = true →
      chainRun env c policy params (pre ++ l) carry =
        ChainOut.consTraces (carryTrace c pre carry)
          (chainRun env c policy params l (carryAll c pre carry))
  | [], l, carry, _ => rfl
  | (q, mq) :: pre, l, carry, h => by
      rw [acceptedChain] at h
      by_cases hacc : env.verify params (mq c carry) = true ∨ policy = Policy.passDown
      · rw [if_pos hacc] at h
        rw [List.cons_append, chainRun_cons, if_pos hacc,
          chainRun_append_accepted env c policy params pre l (mq c carry) h]
        rw [carryTrace, consTraces_cons]
        rfl
      · rw [if_neg hacc] at h
        cases h

theorem sortHandlers_perm (hs : List (Nat × Method S)) : (sortHandlers hs).Perm hs :=
  List.perm_insertionSort keyLE hs

theorem sortHandlers_ne_nil (hs : List (Nat × Method S)) (hne : hs ≠ []) :
    sortHandlers hs ≠ [] := by
  intro h
  exact hne (((h ▸ sortHandlers_perm hs).symm).eq_nil)

/-- The keys of the sorted handler list ascend strictly when the original
keys are free of duplicates (which the source guarantees: the handlers of a
hook name live in a map indexed by priority). -/
theorem sortHandlers_keys_sorted_lt (hs : List (Nat × Method S))
    (hnodup : (hs.map Prod.fst).Nodup) :
    ((sortHandlers hs).map Prod.fst).Sorted (· < ·) := by
  have hperm : ((sortHandlers hs).map Prod.fst).Perm (hs.map Prod.fst) :=
    (sortHandlers_perm hs).map Prod.fst
  have hnd : ((sortHandlers hs).map Prod.fst).Nodup := hperm.nodup_iff.mpr hnodup
  have hsorted : (sortHandlers hs).Sorted keyLE := List.sorted_insertionSort keyLE hs
  have hle : ((sortHandlers hs).map Prod.fst).Sorted (· ≤ ·) :=
    List.pairwise_map.mpr (hsorted.imp (fun h => h))
  exact (hle.and hnd).imp (fun h => lt_of_le_of_ne h.1 h.2)

/-- The loop only feeds the context to the handlers: two contexts the
handlers cannot tell apart produce identical loops. -/
theorem runLoop_ctx_congr (env : Env M S) (policy : Policy) (params : S) (argsC : M)
    (c₁ c₂ : GoContext) :
    ∀ (hs : List (Nat × Method S)), (∀ pm ∈ hs, ∀ s, pm.2 c₁ s = pm.2 c₂ s) →
      ∀ (idx : Nat) (rv : S) (rm : List Nat),
        runLoop env c₁ policy params argsC hs idx rv rm =
          runLoop env c₂ policy params argsC hs idx rv rm
  | [], _, idx, rv, rm => by
      rw [runLoop_nil, runLoop_nil]
  | (p, m) :: rest, h, idx, rv, rm => by
      have hm : ∀ s, m c₁ s = m c₂ s := h (p, m) (List.mem_cons_self _ _)
      have ih := runLoop_ctx_congr env policy params argsC c₁ c₂ rest
        (fun pm hpm => h pm (List.mem_cons_of_mem _ hpm))
      rw [runLoop_cons, runLoop_cons]
      simp only [hm, ih]

/-- runOn never reads the cancellation state of the context itself; only the
handlers receive it. -/
theorem runOn_ctx_insensitive (env : Env M S) (hs : List (Nat × Method S)) (args : M)
    (policy : Policy) (c₁ c₂ : GoContext)
    (h : ∀ pm ∈ hs, ∀ s, pm.2 c₁ s = pm.2 c₂ s) :
    runOn env hs (some c₁) args policy = runOn env hs (some c₂) args policy := by
  have hsorted : ∀ pm ∈ sortHandlers hs, ∀ s, pm.2 c₁ s = pm.2 c₂ s :=
    fun pm hpm => h pm ((sortHandlers_perm hs).subset hpm)
  simp only [runOn]
  cases paramsOf env args with
  | none => rfl
  | some params =>
      simp only [runLoop_ctx_congr env policy params (env.castToPrimitiveTypes args) c₁ c₂
        (sortHandlers hs) hsorted]

end Hook

namespace Hook

variable {M S : Type}

theorem consTraces_aborted (cy : S) :
    ∀ (tr tr' : List (Invocation S)),
      ChainOut.consTraces tr (ChainOut.aborted cy tr') = ChainOut.aborted cy (tr ++ tr')
  | [], tr' => rfl
  | i :: tr, tr' => by
      rw [consTraces_cons, consTraces_aborted cy tr tr', List.cons_append]
      rfl

theorem consTraces_completed (cy : S) (rm : List Nat) :
    ∀ (tr tr' : List (Invocation S)),
      ChainOut.consTraces tr (ChainOut.completed cy rm tr') =
        ChainOut.completed cy rm (tr ++ tr')
  | [], tr' => rfl
  | i :: tr, tr' => by
      rw [consTraces_cons, consTraces_completed cy rm tr tr', List.cons_append]
      rfl

theorem carryTrace_length (c : GoContext) :
    ∀ (hs : List (Nat × Method S)) (carry : S),
      (carryTrace c hs carry).length = hs.length
  | [], _ => rfl
  | (p, m) :: rest, carry => by
      rw [carryTrace, List.length_cons, carryTrace_length c rest (m c carry), List.length_cons]

theorem renderRun_trace (env : Env M S) (args : M) (hs : List (Nat × Method S))
    (o : ChainOut S) : (renderRun env args hs o).trace = o.traceOf := by
  cases o <;> rfl

theorem chainRun_cons_abort_fail (env : Env M S) (c : GoContext) (params : S)
    (p : Nat) (m : Method S) (rest : List (Nat × Method S)) (carry : S)
    (hfail : env.verify params (m c carry) = false) :
    chainRun env c Policy.abort params ((p, m) :: rest) carry =
      ChainOut.aborted carry [⟨p, carry⟩] := by
  rw [chainRun_cons]
  have hcond : ¬(env.verify params (m c carry) = true ∨ Policy.abort = Policy.passDown) := by
    simp [hfail]
  rw [if_neg hcond]

/-- C1 (confirmed): for every environment, registry, hook name, castable
args map and policy, a successful Registry.Run invokes exactly the handlers
the chained semantics prescribes — the registered handlers in strictly
ascending priority order, each invoked with the carry produced by the chain
so far (the previous handler's accepted output, or the prior carry when that
output was rejected) — and when the loop completes and at least one handler
is registered, the returned plain map is the final carry rendered with
AsMap. (The zero-handler return value is settled separately as the C4 code
bug; abort early returns are settled by C2.) -/
theorem claimC1_run_priority_chain (env : Env M S) (reg : Registry M S) (hookName : String)
    (args : M) (policy : Policy) (c : GoContext) (params : S)
    (hnodup : ((reg.hooks hookName).map Prod.fst).Nodup)
    (hparams : paramsOf env args = some params) :
    ∀ out, Registry.Run env reg (some c) args hookName policy = Except.ok out →
      out.trace =
        (chainRun env c policy params (sortHandlers (reg.hooks hookName)) params).traceOf
      ∧ (out.trace.map Invocation.priority).Sorted (· < ·)
      ∧ (∀ cy rm tr,
          chainRun env c policy params (sortHandlers (reg.hooks hookName)) params =
            ChainOut.completed cy rm tr →
          reg.hooks hookName ≠ [] → out.result = env.asMap cy) := by
  intro out hrun
  simp only [Registry.Run] at hrun
  rw [runOn_eq_chain env (reg.hooks hookName) c args policy params hparams] at hrun
  injection hrun with hout
  subst hout
  have hsub := chainRun_trace_sublist env c policy params (sortHandlers (reg.hooks hookName))
    params
  have hlt := sortHandlers_keys_sorted_lt (reg.hooks hookName) hnodup
  refine ⟨(renderRun_trace env args (reg.hooks hookName) _).symm ▸ rfl, ?_, ?_⟩
  · rw [renderRun_trace]
    exact hlt.sublist hsub
  · intro cy rm tr heq hne
    rw [heq]
    cases hsh : sortHandlers (reg.hooks hookName) with
    | nil => exact absurd hsh (sortHandlers_ne_nil _ hne)
    | cons a l =>
        rw [hsh] at heq
        simp [renderRun, heq, hsh, initReturnVal, ChainOut.carryOf]

/-- Witness for C1 at a concrete registry registered out of order. -/
theorem claimC1_witness :
    ((Conc.regChain.hooks "h").map Prod.fst).Nodup
    ∧ paramsOf Conc.envT Conc.argsX = some Conc.argsX
    ∧ (∀ out, Registry.Run Conc.envT Conc.regChain (some ⟨false⟩) Conc.argsX "h"
          Policy.passDown = Except.ok out →
        out.trace = (chainRun Conc.envT ⟨false⟩ Policy.passDown Conc.argsX
            (sortHandlers (Conc.regChain.hooks "h")) Conc.argsX).traceOf
        ∧ (out.trace.map Invocation.priority).Sorted (· < ·)
        ∧ (∀ cy rm tr,
            chainRun Conc.envT ⟨false⟩ Policy.passDown Conc.argsX
                (sortHandlers (Conc.regChain.hooks "h")) Conc.argsX =
              ChainOut.completed cy rm tr →
            Conc.regChain.hooks "h" ≠ [] → out.result = Conc.envT.asMap cy)) :=
  ⟨by decide, rfl,
    claimC1_run_priority_chain Conc.envT Conc.regChain "h" Conc.argsX Policy.passDown
      ⟨false⟩ Conc.argsX (by decide) rfl⟩

/-- C2 (confirmed): under the Abort policy, when the handlers before some
position are all accepted and the handler at that position returns a value
failing verification, Registry.Run invokes no later handler, leaves the
registry untouched, and returns the last valid carry — the args map as cast
by step one of the protocol when the failing handler was the first — with no
error. -/
theorem claimC2_abort_returns_last_carry (env : Env M S) (reg : Registry M S)
    (hookName : String) (args : M) (c : GoContext) (params : S)
    (pre : List (Nat × Method S)) (p : Nat) (m : Method S) (rest : List (Nat × Method S))
    (hparams : paramsOf env args = some params)
    (hsorted : sortHandlers (reg.hooks hookName) = pre ++ (p, m) :: rest)
    (hpre : acceptedChain env c Policy.abort params pre params = true)
    (hfail : env.verify params (m c (carryAll c pre params)) = false) :
    Registry.Run env reg (some c) args hookName Policy.abort =
      Except.ok
        ⟨abortResult env args c params pre,
          reg.hooks hookName,
          carryTrace c pre params ++ [⟨p, carryAll c pre params⟩]⟩ := by
  simp only [Registry.Run]
  rw [runOn_eq_chain env (reg.hooks hookName) c args Policy.abort params hparams, hsorted,
    chainRun_append_accepted env c Policy.abort params pre ((p, m) :: rest) params hpre,
    chainRun_cons_abort_fail env c params p m rest (carryAll c pre params) hfail,
    consTraces_aborted]
  cases pre with
  | nil =>
      simp [renderRun, carryTrace, carryAll, abortResult]
  | cons q qre =>
      have hlen : ((carryTrace c (q :: qre) params) ++
          [(⟨p, carryAll c (q :: qre) params⟩ : Invocation S)]).length ≠ 1 := by
        rw [List.length_append, carryTrace_length]
        simp
      simp [renderRun, if_neg hlen, abortResult]

/-- Witness for C2: three handlers; the one at priority 20 fails, the chain
stops there and the carry left by priority 10 is returned. -/
theorem claimC2_witness :
    paramsOf Conc.envL Conc.argsX = some Conc.argsX
    ∧ sortHandlers (Conc.regAbort.hooks "h") =
        [(10, Conc.mTag)] ++ (20, Conc.mDrop) :: [(30, Conc.mKeep)]
    ∧ acceptedChain Conc.envL ⟨false⟩ Policy.abort Conc.argsX [(10, Conc.mTag)] Conc.argsX
        = true
    ∧ Conc.envL.verify Conc.argsX
        (Conc.mDrop ⟨false⟩ (carryAll ⟨false⟩ [(10, Conc.mTag)] Conc.argsX)) = false
    ∧ Registry.Run Conc.envL Conc.regAbort (some ⟨false⟩) Conc.argsX "h" Policy.abort =
        Except.ok
          ⟨abortResult Conc.envL Conc.argsX ⟨false⟩ Conc.argsX [(10, Conc.mTag)],
            Conc.regAbort.hooks "h",
            carryTrace ⟨false⟩ [(10, Conc.mTag)] Conc.argsX ++
              [⟨20, carryAll ⟨false⟩ [(10, Conc.mTag)] Conc.argsX⟩]⟩ :=
  ⟨rfl, rfl, rfl, rfl,
    claimC2_abort_returns_last_carry Conc.envL Conc.regAbort "h" Conc.argsX ⟨false⟩
      Conc.argsX [(10, Conc.mTag)] 20 Conc.mDrop [(30, Conc.mKeep)] rfl rfl rfl rfl⟩

end Hook

namespace Hook

variable {M S : Type}

/-- C3 (confirmed): under the Remove policy a successful Registry.Run
behaves as the chained semantics prescribes: every registered handler is
still invoked in this run (a failing handler only keeps the previous carry
and is scheduled), the scheduled priorities are deleted from the hook's
handler map only after the loop, the returned map is the final carry when at
least one handler is registered, and a subsequent Run on the same hook name
invokes only handlers that survived. -/
theorem claimC3_remove_policy (env : Env M S) (reg : Registry M S) (hookName : String)
    (args : M) (c : GoContext) (params : S)
    (hparams : paramsOf env args = some params) :
    ∀ out, Registry.Run env reg (some c) args hookName Policy.remove = Except.ok out →
      out.trace =
        (chainRun env c Policy.remove params (sortHandlers (reg.hooks hookName))
          params).traceOf
      ∧ out.trace.length = (reg.hooks hookName).length
      ∧ out.handlers = (reg.hooks hookName).filter (fun h => decide (h.1 ∉
          (chainRun env c Policy.remove params (sortHandlers (reg.hooks hookName))
            params).removedOf))
      ∧ (reg.hooks hookName ≠ [] →
          out.result = env.asMap
            (chainRun env c Policy.remove params (sortHandlers (reg.hooks hookName))
              params).carryOf)
      ∧ (∀ out2, Registry.Run env (Registry.afterRun reg hookName out.handlers) (some c)
            args hookName Policy.remove = Except.ok out2 →
          ∀ q ∈ out2.trace.map Invocation.priority, q ∈ out.handlers.map Prod.fst) := by
  intro out hrun
  simp only [Registry.Run] at hrun
  rw [runOn_eq_chain env (reg.hooks hookName) c args Policy.remove params hparams] at hrun
  injection hrun with hout
  subst hout
  have hlenchain := chainRun_trace_length env c Policy.remove params (by decide)
    (sortHandlers (reg.hooks hookName)) params
  cases hchain : chainRun env c Policy.remove params (sortHandlers (reg.hooks hookName))
      params with
  | aborted cy tr =>
      have hcomp := chainRun_isCompleted env c Policy.remove params (by decide)
        (sortHandlers (reg.hooks hookName)) params
      rw [hchain] at hcomp
      simp [ChainOut.isCompleted] at hcomp
  | completed cy rm tr =>
      rw [hchain] at hlenchain
      refine ⟨?_, ?_, ?_, ?_, ?_⟩
      · rw [renderRun_trace]
      · rw [renderRun_trace]
        rw [ChainOut.traceOf] at hlenchain ⊢
        rw [hlenchain, (sortHandlers_perm (reg.hooks hookName)).length_eq]
      · simp [renderRun, ChainOut.removedOf]
      · intro hne
        cases hsh : sortHandlers (reg.hooks hookName) with
        | nil => exact absurd hsh (sortHandlers_ne_nil _ hne)
        | cons a l =>
            rw [hsh] at hchain
            simp [renderRun, hchain, hsh, initReturnVal, ChainOut.carryOf]
      · intro out2 hrun2 q hq
        have hreg2 : (Registry.afterRun reg hookName
            ((renderRun env args (reg.hooks hookName)
              (ChainOut.completed cy rm tr)).handlers)).hooks hookName =
            (renderRun env args (reg.hooks hookName)
              (ChainOut.completed cy rm tr)).handlers := by
          simp [Registry.afterRun]
        simp only [Registry.Run, hreg2] at hrun2
        rw [runOn_eq_chain env _ c args Policy.remove params hparams] at hrun2
        injection hrun2 with hout2
        subst hout2
        rw [renderRun_trace] at hq
        have hsub := chainRun_trace_sublist env c Policy.remove params
          (sortHandlers ((renderRun env args (reg.hooks hookName)
            (ChainOut.completed cy rm tr)).handlers)) params
        have hq2 := hsub.subset hq
        exact (List.Perm.mem_iff ((sortHandlers_perm _).map Prod.fst)).mp hq2

/-- Witness for C3: the Remove scenario of the spec — the handler at
priority 10 fails and is evicted, the one at priority 20 still runs and
survives. -/
theorem claimC3_witness :
    paramsOf Conc.envL Conc.argsX = some Conc.argsX
    ∧ (∀ out, Registry.Run Conc.envL Conc.regRemove (some ⟨false⟩) Conc.argsX "h"
          Policy.remove = Except.ok out →
        out.trace =
          (chainRun Conc.envL ⟨false⟩ Policy.remove Conc.argsX
            (sortHandlers (Conc.regRemove.hooks "h")) Conc.argsX).traceOf
        ∧ out.trace.length = (Conc.regRemove.hooks "h").length
        ∧ out.handlers = (Conc.regRemove.hooks "h").filter (fun h => decide (h.1 ∉
            (chainRun Conc.envL ⟨false⟩ Policy.remove Conc.argsX
              (sortHandlers (Conc.regRemove.hooks "h")) Conc.argsX).removedOf))
        ∧ (Conc.regRemove.hooks "h" ≠ [] →
            out.result = Conc.envL.asMap
              (chainRun Conc.envL ⟨false⟩ Policy.remove Conc.argsX
                (sortHandlers (Conc.regRemove.hooks "h")) Conc.argsX).carryOf)
        ∧ (∀ out2, Registry.Run Conc.envL
              (Registry.afterRun Conc.regRemove "h" out.handlers) (some ⟨false⟩)
              Conc.argsX "h" Policy.remove = Except.ok out2 →
            ∀ q ∈ out2.trace.map Invocation.priority, q ∈ out.handlers.map Prod.fst)) :=
  ⟨rfl, claimC3_remove_policy Conc.envL Conc.regRemove "h" Conc.argsX ⟨false⟩
    Conc.argsX rfl⟩

/-- C4 (code bug): Registry.Run on a hook name with no registered handlers
does not return the args unchanged — the loop never runs, returnVal is still
the empty struct, and its AsMap (the empty map) is returned. Evaluated here
at a concrete non-empty args map: the result is the empty map, not args. -/
theorem claimC4_empty_hooks_returns_empty_map :
    Registry.Run Conc.envT Conc.regEmpty (some ⟨false⟩) Conc.argsX "h" Policy.passDown =
      Except.ok ⟨[], [], []⟩
    ∧ Conc.argsX ≠ ([] : Conc.MX) := ⟨rfl, by decide⟩

/-- Counterexample to C5: Registry.Run with an already-cancelled context
still invokes the registered handler (the trace records the invocation) and
returns the handler's result, not the args map an Abort-style short-circuit
would return. -/
theorem claimC5_counterexample :
    Registry.Run Conc.envT Conc.regOne (some ⟨true⟩) Conc.argsX "h" Policy.passDown =
      Except.ok ⟨[("r", 9)], [(1, Conc.mMark)], [⟨1, Conc.argsX⟩]⟩
    ∧ ([("r", (9 : Int))] : Conc.MX) ≠ Conc.envT.castToPrimitiveTypes Conc.argsX :=
  ⟨rfl, by decide⟩

/-- C5 (amended): Registry.Run never inspects the cancellation state of the
context; only a nil context short-circuits (with NilContext). With an
already-cancelled context the run proceeds exactly as with a live one
whenever the handlers themselves do not distinguish the two contexts, and
every registered handler is still invoked (see the counterexample for a
concrete cancelled-context run whose trace is non-empty). -/
theorem claimC5_cancelled_ctx_still_runs (env : Env M S) (reg : Registry M S)
    (hookName : String) (args : M) (policy : Policy)
    (h : ∀ pm ∈ reg.hooks hookName, ∀ s, pm.2 ⟨true⟩ s = pm.2 ⟨false⟩ s) :
    Registry.Run env reg (some ⟨true⟩) args hookName policy =
      Registry.Run env reg (some ⟨false⟩) args hookName policy
    ∧ Registry.Run env reg none args hookName policy =
        Except.error HookError.nilContext := by
  constructor
  · exact runOn_ctx_insensitive env (reg.hooks hookName) args policy ⟨true⟩ ⟨false⟩ h
  · rfl

/-- Witness for C5 at the one-handler registry. -/
theorem claimC5_witness :
    (∀ pm ∈ Conc.regOne.hooks "h", ∀ s, pm.2 ⟨true⟩ s = pm.2 ⟨false⟩ s)
    ∧ (Registry.Run Conc.envT Conc.regOne (some ⟨true⟩) Conc.argsX "h" Policy.passDown =
        Registry.Run Conc.envT Conc.regOne (some ⟨false⟩) Conc.argsX "h" Policy.passDown
      ∧ Registry.Run Conc.envT Conc.regOne none Conc.argsX "h" Policy.passDown =
          Except.error HookError.nilContext) := by
  have h : ∀ pm ∈ Conc.regOne.hooks "h", ∀ s, pm.2 ⟨true⟩ s = pm.2 ⟨false⟩ s := by
    intro pm hpm s
    have hpm' : pm = (1, Conc.mMark) := List.mem_singleton.mp hpm
    rw [hpm']
    rfl
  exact ⟨h, claimC5_cancelled_ctx_still_runs Conc.envT Conc.regOne "h" Conc.argsX
    Policy.passDown h⟩

end Hook

namespace Network

/-- Counterexample to C6: a PassThrough error of kind CastFailed (wrapping
nothing) closes the inbound connection, although the claim's enumeration of
connection-fatal kinds does not contain CastFailed and claims the connection
stays open on every other outcome. -/
theorem claimC6_counterexample :
    Server.OnTrafficAction (some ⟨ErrKind.castFailed, Option.none⟩) = Action.close
    ∧ ¬ claimC6Fatal ⟨ErrKind.castFailed, Option.none⟩ := ⟨rfl, by decide⟩

/-- C6 (amended): Server.OnTraffic closes the inbound connection exactly
when Proxy.PassThrough returns an error of kind PoolExhausted, CastFailed,
ClientNotFound, ClientNotConnected, ClientSendFailed, ClientReceiveFailed or
HookTerminatedConnection, or an error wrapping upstream EOF; on any other
PassThrough outcome the connection stays open. -/
theorem claimC6_close_iff_fatal :
    ∀ res : Option GatewayDError,
      Server.OnTrafficAction res = Action.close ↔ ∃ e, res = some e ∧ connectionFatal e := by
  intro res
  cases res with
  | none =>
      simp [Server.OnTrafficAction]
  | some e =>
      simp only [Server.OnTrafficAction]
      by_cases hc : e.kind = ErrKind.poolExhausted ∨ e.kind = ErrKind.castFailed
          ∨ e.kind = ErrKind.clientNotFound ∨ e.kind = ErrKind.clientNotConnected
          ∨ e.kind = ErrKind.clientSendFailed ∨ e.kind = ErrKind.clientReceiveFailed
          ∨ e.kind = ErrKind.hookTerminatedConnection ∨ e.wrapped = some WrapErr.eof
      · rw [if_pos hc]
        constructor
        · intro _
          refine ⟨e, rfl, ?_⟩
          simp only [connectionFatal, List.mem_cons, List.not_mem_nil]
          tauto
        · intro _
          rfl
      · rw [if_neg hc]
        constructor
        · intro habs
          cases habs
        · rintro ⟨e', he', hf⟩
          injection he' with he''
          subst he''
          simp only [connectionFatal, List.mem_cons, List.not_mem_nil] at hf
          exact absurd (by tauto) hc

/-- C7 (confirmed): with a non-zero hard limit already reached, OnOpen runs
the OnOpening hooks, writes the notice to the inbound connection and closes
it, never calling Proxy.Connect and never running the OnOpened hooks. -/
theorem claimC7_hard_limit (s : Server) (count : Nat) (connect : Option GatewayDError)
    (h0 : s.hardLimit ≠ 0) (hge : s.hardLimit ≤ count) :
    Server.OnOpen s count connect =
      ([ServerEffect.runHook HookPoint.onOpening,
        ServerEffect.writeConn "Hard limit reached\n"], Action.close)
    ∧ ServerEffect.proxyConnect ∉ (Server.OnOpen s count connect).1
    ∧ ServerEffect.runHook HookPoint.onOpened ∉ (Server.OnOpen s count connect).1 := by
  have hcond : 0 < s.hardLimit ∧ s.hardLimit ≤ count := ⟨Nat.pos_of_ne_zero h0, hge⟩
  have heq : Server.OnOpen s count connect =
      ([ServerEffect.runHook HookPoint.onOpening,
        ServerEffect.writeConn "Hard limit reached\n"], Action.close) := by
    simp only [Server.OnOpen, if_pos hcond]
    rfl
  refine ⟨heq, ?_, ?_⟩ <;> rw [heq] <;> decide

/-- Witness for C7: hard limit 1, one open connection. -/
theorem claimC7_witness :
    ((⟨0, 1, Status.running⟩ : Server).hardLimit ≠ 0)
    ∧ ((⟨0, 1, Status.running⟩ : Server).hardLimit ≤ 1)
    ∧ (Server.OnOpen ⟨0, 1, Status.running⟩ 1 Option.none =
        ([ServerEffect.runHook HookPoint.onOpening,
          ServerEffect.writeConn "Hard limit reached\n"], Action.close)
      ∧ ServerEffect.proxyConnect ∉ (Server.OnOpen ⟨0, 1, Status.running⟩ 1 Option.none).1
      ∧ ServerEffect.runHook HookPoint.onOpened ∉
          (Server.OnOpen ⟨0, 1, Status.running⟩ 1 Option.none).1) :=
  ⟨by decide, by decide,
    claimC7_hard_limit ⟨0, 1, Status.running⟩ 1 Option.none (by decide) (by decide)⟩

/-- Counterexample to C8: at a close event with zero connections and status
Stopped, OnClose signals shutdown right after the OnClosing hooks —
Proxy.Disconnect and the OnClosed hooks never run, contradicting the claimed
OnClosing-Disconnect-OnClosed sequence; and with the status Stopping named
by the claim (and zero connections) no shutdown is signalled at all, because
the code compares against Stopped. -/
theorem claimC8_counterexample :
    (Server.OnClose ⟨0, 0, Status.stopped⟩ 0 Option.none).1 =
      [ServerEffect.runHook HookPoint.onClosing]
    ∧ ServerEffect.proxyDisconnect ∉ (Server.OnClose ⟨0, 0, Status.stopped⟩ 0 Option.none).1
    ∧ ServerEffect.runHook HookPoint.onClosed ∉
        (Server.OnClose ⟨0, 0, Status.stopped⟩ 0 Option.none).1
    ∧ (Server.OnClose ⟨0, 0, Status.stopping⟩ 0 Option.none).2 ≠ Action.shutdown := by
  refine ⟨rfl, ?_, ?_, ?_⟩ <;> decide

/-- C8 (amended): every OnClose starts with the OnClosing hooks; shutdown is
signalled exactly when the connection count is 0 and the status is Stopped,
and in that case nothing else happens; otherwise Proxy.Disconnect follows,
and exactly when it succeeds the OnClosed hooks run and the gauge is
decremented. -/
theorem claimC8_onclose_order (s : Server) (count : Nat) (res : Option GatewayDError) :
    (Server.OnClose s count res).1.head? = some (ServerEffect.runHook HookPoint.onClosing)
    ∧ ((Server.OnClose s count res).2 = Action.shutdown ↔
        (count = 0 ∧ s.status = Status.stopped))
    ∧ ((Server.OnClose s count res).2 = Action.shutdown →
        (Server.OnClose s count res).1 = [ServerEffect.runHook HookPoint.onClosing])
    ∧ ((Server.OnClose s count res).2 ≠ Action.shutdown →
        (Server.OnClose s count res).1 =
          ServerEffect.runHook HookPoint.onClosing :: ServerEffect.proxyDisconnect ::
            (if res.isSome then []
             else [ServerEffect.runHook HookPoint.onClosed,
               ServerEffect.decClientConnections])) := by
  by_cases hc : count = 0 ∧ s.status = Status.stopped
  · have heq : Server.OnClose s count res =
        ([ServerEffect.runHook HookPoint.onClosing], Action.shutdown) := by
      simp only [Server.OnClose, if_pos hc]
    rw [heq]
    exact ⟨rfl, ⟨fun _ => hc, fun _ => rfl⟩, fun _ => rfl, fun hne => absurd rfl hne⟩
  · cases res with
    | some e =>
        have heq : Server.OnClose s count (some e) =
            ([ServerEffect.runHook HookPoint.onClosing, ServerEffect.proxyDisconnect],
              Action.close) := by
          simp only [Server.OnClose, if_neg hc]
          rfl
        rw [heq]
        exact ⟨rfl, ⟨fun h => absurd h (by decide), fun h => absurd h hc⟩,
          fun h => absurd h (by decide), fun _ => rfl⟩
    | none =>
        have heq : Server.OnClose s count Option.none =
            ([ServerEffect.runHook HookPoint.onClosing, ServerEffect.proxyDisconnect,
              ServerEffect.runHook HookPoint.onClosed,
              ServerEffect.decClientConnections], Action.close) := by
          simp only [Server.OnClose, if_neg hc]
          rfl
        rw [heq]
        exact ⟨rfl, ⟨fun h => absurd h (by decide), fun h => absurd h hc⟩,
          fun h => absurd h (by decide), fun _ => rfl⟩

/-- Witness for C8 at a running server with one connection. -/
theorem claimC8_witness :
    (Server.OnClose ⟨0, 0, Status.running⟩ 1 Option.none).1.head? =
      some (ServerEffect.runHook HookPoint.onClosing)
    ∧ ((Server.OnClose ⟨0, 0, Status.running⟩ 1 Option.none).2 = Action.shutdown ↔
        ((1 : Nat) = 0 ∧ (⟨0, 0, Status.running⟩ : Server).status = Status.stopped))
    ∧ ((Server.OnClose ⟨0, 0, Status.running⟩ 1 Option.none).2 = Action.shutdown →
        (Server.OnClose ⟨0, 0, Status.running⟩ 1 Option.none).1 =
          [ServerEffect.runHook HookPoint.onClosing])
    ∧ ((Server.OnClose ⟨0, 0, Status.running⟩ 1 Option.none).2 ≠ Action.shutdown →
        (Server.OnClose ⟨0, 0, Status.running⟩ 1 Option.none).1 =
          ServerEffect.runHook HookPoint.onClosing :: ServerEffect.proxyDisconnect ::
            (if (Option.none : Option GatewayDError).isSome then []
             else [ServerEffect.runHook HookPoint.onClosed,
               ServerEffect.decClientConnections])) :=
  claimC8_onclose_order ⟨0, 0, Status.running⟩ 1 Option.none

/-- C9 (confirmed): whenever the shutdown condition holds (zero connections
and status Stopped), OnClose returns the shutdown action right after the
OnClosing hooks: Proxy.Disconnect, the OnClosed hooks and the gauge
decrement all do not occur for that close event. -/
theorem claimC9_shutdown_skips_disconnect (soft hard : Nat) (res : Option GatewayDError) :
    Server.OnClose ⟨soft, hard, Status.stopped⟩ 0 res =
      ([ServerEffect.runHook HookPoint.onClosing], Action.shutdown)
    ∧ ServerEffect.proxyDisconnect ∉
        (Server.OnClose ⟨soft, hard, Status.stopped⟩ 0 res).1
    ∧ ServerEffect.runHook HookPoint.onClosed ∉
        (Server.OnClose ⟨soft, hard, Status.stopped⟩ 0 res).1
    ∧ ServerEffect.decClientConnections ∉
        (Server.OnClose ⟨soft, hard, Status.stopped⟩ 0 res).1 := by
  have heq : Server.OnClose ⟨soft, hard, Status.stopped⟩ 0 res =
      ([ServerEffect.runHook HookPoint.onClosing], Action.shutdown) := by
    simp [Server.OnClose]
  refine ⟨heq, ?_, ?_, ?_⟩ <;> rw [heq] <;> decide

/-- C10 (confirmed): when the OnRun hook result map holds a string under the
"address" key, Server.Run listens on that plugin-supplied address instead of
the resolved configured one. -/
theorem claimC10_address_override (networkKind resolved : String) (r : ResultMap)
    (a : String) (hlook : r.lookup "address" = some (GoValue.str a)) :
    Server.RunListenAddr resolved (some r) = a
    ∧ Server.RunListenTarget networkKind resolved (some r) = networkKind ++ "://" ++ a := by
  constructor
  · simp [Server.RunListenAddr, hlook]
  · simp [Server.RunListenTarget, Server.RunListenAddr, hlook]

/-- Witness for C10 at a concrete one-entry result map. -/
theorem claimC10_witness :
    (([("address", GoValue.str "127.0.0.1:5432")] : ResultMap).lookup "address" =
      some (GoValue.str "127.0.0.1:5432"))
    ∧ (Server.RunListenAddr "0.0.0.0:15432"
        (some [("address", GoValue.str "127.0.0.1:5432")]) = "127.0.0.1:5432"
      ∧ Server.RunListenTarget "tcp" "0.0.0.0:15432"
          (some [("address", GoValue.str "127.0.0.1:5432")]) =
        "tcp" ++ "://" ++ "127.0.0.1:5432") :=
  ⟨rfl, claimC10_address_override "tcp" "0.0.0.0:15432"
    [("address", GoValue.str "127.0.0.1:5432")] "127.0.0.1:5432" rfl⟩

end Network
